import Mathlib

/-!
Shallow embedding of `src/pdf2img.py` (murcje/pdf2img): a GUI tool converting a
multi-page PDF into one long vertical image.

The external collaborators (PyMuPDF's `fitz` and Pillow) are abstracted per
page: whether `doc.load_page` raises, whether `page.get_images(full=True)`
raises, whether it returns a non-empty list, whether rasterization
(`page.get_pixmap` / `Image.frombytes`) raises, and the pixel dimensions of the
rendered page at the conversion's DPI.  `fitz.open` failing is modelled by the
pipeline receiving `none` instead of a document, and `final_image.save` failing
by a boolean.  The DPI value only scales the pixel dimensions the rasterizer
reports, which the page abstraction already carries, so the pipeline itself
does not consume it.

The observable behaviour of one conversion is a trace of events (status-bar
updates, progress-bar writes, document close, canvas creation, pastes, save)
plus a result (`Except Err Unit`).  A progress-bar write is recorded with the
arguments of the source expression that produced it (`ProgressVal`), and
`ProgressVal.toQ` computes the exact number pushed, mirroring
`(rendered_page_count / num_pages_to_render) * 100 * 0.9`, `0`, `95`, `100`.
-/

namespace Pdf2Img

/-- Abstraction of one page of the opened document, at a fixed DPI.
Field `loadFails`: `doc.load_page(page_num)` raises. `getImagesFails`:
`page.get_images(full=True)` raises. `hasImages`: `get_images` returns a
non-empty list. `renderFails`: `page.get_pixmap(matrix=mat)` or
`Image.frombytes` raises. `width`, `height`: `pix.width`, `pix.height` of the
rendered pixmap. -/
structure PageSpec where
  loadFails : Bool
  getImagesFails : Bool
  hasImages : Bool
  renderFails : Bool
  width : Nat
  height : Nat
deriving DecidableEq, Repr

/-- An opened document: `doc.page_count = pages.length`, `doc.load_page i`
addresses `pages[i]`. -/
structure Doc where
  pages : List PageSpec
deriving DecidableEq, Repr

/-- A value written to the progress bar (`self.progress_var.set(...)`),
recorded by write site. `rendering rc num` is the write at the end of a
successful iteration of the render loop with `rendered_page_count = rc` and
`num_pages_to_render = num`. -/
inductive ProgressVal where
  | reset
  | rendering (rc num : Nat)
  | compositing
  | done
deriving DecidableEq, Repr

/-- The number a `ProgressVal` write pushes:
`(rendered_page_count / num_pages_to_render) * 100 * 0.9` for the render loop,
`0`, `95` and `100` for the fixed writes. -/
def ProgressVal.toQ : ProgressVal → ℚ
  | .reset => 0
  | .rendering rc num => ((rc : ℚ) / (num : ℚ)) * 100 * (9 / 10)
  | .compositing => 95
  | .done => 100

/-- Observable events of one conversion, in program order. -/
inductive Event where
  | statusScan (pageCount : Nat)
  | statusFiltering
  | statusFound (n : Nat)
  | statusProcessing (n : Nat)
  | progress (v : ProgressVal)
  | statusRendered (rendered total origPage : Nat)
  | statusPageError (origPage : Nat)
  | closeDoc
  | statusCreating (w h : Nat)
  | newCanvas (w h : Nat) (bg : Nat × Nat × Nat)
  | paste (x y w h : Nat)
  | statusSaving
  | save
deriving DecidableEq, Repr

/-- The distinguishable failure outcomes of `start_conversion` /
`pdf_to_vertical_image_with_gui_updates` (each is a raised `Exception` or an
early `return` in the source; `scanError i` is the uncaught exception raised
by `load_page`/`get_images` while filtering page `i`). -/
inductive Err where
  | missingInput
  | missingOutput
  | invalidConfiguration
  | cannotOpenSource
  | emptySource
  | scanError (pageNum : Nat)
  | noMatchingPages
  | noPagesSelected
  | noPagesRendered
  | cannotWriteDestination
deriving DecidableEq, Repr

/-- True when `load_page` or `get_images` raises while scanning this page in
the filter loop (lines 189-191). -/
def pageFailsScan (p : PageSpec) : Bool := p.loadFails || p.getImagesFails

/-- The `try` block of the render loop (lines 217-222) raises for this page:
`load_page`, `get_pixmap` or `Image.frombytes` fails. -/
def pageFailsRender (p : PageSpec) : Bool := p.loadFails || p.renderFails

/-- The filter loop (lines 189-192): walk the pages from index `k`, collecting
indices whose page has images; an exception while loading/inspecting a page
aborts the walk with that page's index. -/
def scanFrom : List PageSpec → Nat → Except Nat (List Nat)
  | [], _ => .ok []
  | p :: rest, k =>
    if pageFailsScan p then .error k
    else
      match scanFrom rest (k + 1) with
      | .error j => .error j
      | .ok tail => .ok (if p.hasImages then k :: tail else tail)

/-- The computation of `pages_to_process` (lines 186-201): the full range when
the checkbox is off, the filter-loop result when it is on. -/
def selectionSet (doc : Doc) (onlyPagesWithImages : Bool) : Except Nat (List Nat) :=
  if onlyPagesWithImages then scanFrom doc.pages 0
  else .ok (List.range doc.pages.length)

/-- Mutable state of the render loop (lines 211-241): `page_images`,
`total_height`, `max_width`, `rendered_page_count`, plus the emitted events. -/
structure RenderState where
  images : List (Nat × Nat)
  totalHeight : Nat
  maxWidth : Nat
  renderedCount : Nat
  events : List Event
deriving DecidableEq, Repr

/-- One iteration of the render loop (lines 216-241) for `page_num = i`.  On
any exception in the `try` block the page is skipped after a status update
(lines 237-241); otherwise the rendered image is appended and the totals,
counter, progress bar and status are updated (lines 222-235).  An out-of-range
index would make `load_page` raise inside the `try`, hence is also skipped. -/
def renderStep (doc : Doc) (num : Nat) (s : RenderState) (i : Nat) : RenderState :=
  match doc.pages[i]? with
  | none => { s with events := s.events ++ [.statusPageError (i + 1)] }
  | some p =>
    if pageFailsRender p then
      { s with events := s.events ++ [.statusPageError (i + 1)] }
    else
      { images := s.images ++ [(p.width, p.height)]
        totalHeight := s.totalHeight + p.height
        maxWidth := if p.width > s.maxWidth then p.width else s.maxWidth
        renderedCount := s.renderedCount + 1
        events := s.events ++ [.progress (.rendering (s.renderedCount + 1) num),
                               .statusRendered (s.renderedCount + 1) num (i + 1)] }

/-- The render loop (line 216): fold `renderStep` over `pages_to_process`. -/
def renderLoop (doc : Doc) (num : Nat) (s : RenderState) : List Nat → RenderState
  | [] => s
  | i :: rest => renderLoop doc num (renderStep doc num s i) rest

/-- The compositing loop (lines 253-257): paste each buffered image at
`x = (max_width - width) // 2` and the running `current_y`, then advance
`current_y` by its height. -/
def pasteLoop (maxW : Nat) : Nat → List (Nat × Nat) → List Event
  | _, [] => []
  | y, (w, h) :: rest => .paste ((maxW - w) / 2) y w h :: pasteLoop maxW (y + h) rest

/-- Lines 203-264 of `pdf_to_vertical_image_with_gui_updates`: everything after
the selection set is fixed.  `evs` are the events emitted so far. -/
def pipelineBody (doc : Doc) (evs : List Event) (sel : List Nat) (saveFails : Bool) :
    List Event × Except Err Unit :=
  let num := sel.length
  if num = 0 then (evs ++ [.closeDoc], .error .noPagesSelected)
  else
    let s := renderLoop doc num
      { images := [], totalHeight := 0, maxWidth := 0, renderedCount := 0,
        events := evs ++ [.statusProcessing num] } sel
    let evs2 := s.events ++ [.closeDoc]
    if s.images = [] then (evs2, .error .noPagesRendered)
    else
      let evs3 := evs2 ++
        [.statusCreating s.maxWidth s.totalHeight, .progress .compositing,
         .newCanvas s.maxWidth s.totalHeight (255, 255, 255)] ++
        pasteLoop s.maxWidth 0 s.images ++ [.statusSaving]
      if saveFails then (evs3, .error .cannotWriteDestination)
      else (evs3 ++ [.save, .progress .done], .ok ())

/-- The function `pdf_to_vertical_image_with_gui_updates` (lines 171-264).
Passing `doc? = none` models `fitz.open` raising (lines 176-178); `saveFails`
models `final_image.save` raising (lines 260-264). -/
def pipeline (doc? : Option Doc) (onlyPagesWithImages saveFails : Bool) :
    List Event × Except Err Unit :=
  match doc? with
  | none => ([], .error .cannotOpenSource)
  | some doc =>
    if doc.pages.length = 0 then ([.closeDoc], .error .emptySource)
    else
      let ev1 : List Event := [.statusScan doc.pages.length] ++
        (if onlyPagesWithImages then [.statusFiltering] else [])
      match selectionSet doc onlyPagesWithImages with
      | .error i => (ev1, .error (.scanError i))
      | .ok sel =>
        if onlyPagesWithImages then
          if sel = [] then (ev1 ++ [.closeDoc], .error .noMatchingPages)
          else pipelineBody doc (ev1 ++ [.statusFound sel.length]) sel saveFails
        else pipelineBody doc ev1 sel saveFails

/-- The numeric value of a decimal digit, `none` for any other character. -/
def digitVal (c : Char) : Option Nat :=
  if c.isDigit then some (c.toNat - '0'.toNat) else none

/-- Accumulate decimal digits left to right; `none` on a non-digit. -/
def parseDigitsAux : Nat → List Char → Option Nat
  | acc, [] => some acc
  | acc, c :: cs =>
    match digitVal c with
    | none => none
    | some d => parseDigitsAux (acc * 10 + d) cs

/-- Parse a non-empty run of decimal digits. -/
def parseDigits : List Char → Option Nat
  | [] => none
  | cs => parseDigitsAux 0 cs

/-- Model of Python's builtin `int(s)` as used at line 148: an optional sign
followed by decimal digits, `none` (a raised `ValueError`) otherwise.  (The
builtin also tolerates surrounding whitespace and grouping underscores, which
no claim exercises.) -/
def str_to_int (s : String) : Option Int :=
  match s.data with
  | '-' :: rest => (parseDigits rest).map fun n => -(n : Int)
  | '+' :: rest => (parseDigits rest).map fun n => (n : Int)
  | cs => (parseDigits cs).map fun n => (n : Int)

/-- DPI validation in `start_conversion` (lines 147-153): `int(dpi_str)` must
parse and be strictly positive (`int` raising and the explicit
`raise ValueError` for `dpi <= 0` are both caught and rejected). -/
def validate_dpi (s : String) : Option Int :=
  match str_to_int s with
  | none => none
  | some d => if d ≤ 0 then none else some d

/-- The handler `start_conversion` (lines 134-169): checks for missing paths and invalid
DPI before any document is opened, resets the progress bar to 0, runs the
pipeline, and (in `finally`, line 169 — the caller's own reset policy, after
the conversion is over) resets the progress bar to 0 again. -/
def start_conversion (pdfPath outputPath dpiStr : String)
    (doc? : Option Doc) (onlyPagesWithImages saveFails : Bool) :
    List Event × Except Err Unit :=
  if pdfPath = "" then ([], .error .missingInput)
  else if outputPath = "" then ([], .error .missingOutput)
  else
    match validate_dpi dpiStr with
    | none => ([], .error .invalidConfiguration)
    | some _ =>
      let r := pipeline doc? onlyPagesWithImages saveFails
      (.progress .reset :: r.1 ++ [.progress .reset], r.2)

/-- The events of one conversion: the reset at line 157 followed by the
pipeline's events.  The second reset in `start_conversion`'s `finally` belongs
to the caller's after-conversion policy and is not part of the conversion. -/
def conversionEvents (doc? : Option Doc) (onlyPagesWithImages saveFails : Bool) :
    List Event :=
  .progress .reset :: (pipeline doc? onlyPagesWithImages saveFails).1

/-- The dimensions of the pages of `sel` that render successfully, in
selection order: what the render loop accumulates in `page_images`. -/
def renderedDims (doc : Doc) (sel : List Nat) : List (Nat × Nat) :=
  sel.filterMap fun i =>
    match doc.pages[i]? with
    | none => none
    | some p => if pageFailsRender p then none else some (p.width, p.height)

/-- The selection set a run actually iterates over (empty when the scan
raised, which aborts before any iteration). -/
def selOf (doc : Doc) (only : Bool) : List Nat :=
  match selectionSet doc only with
  | .ok sel => sel
  | .error _ => []

/-- The numbers pushed to the progress bar along a trace, in order. -/
def progressValues (tr : List Event) : List ℚ :=
  tr.filterMap fun e =>
    match e with
    | .progress v => some v.toQ
    | _ => none

/-- The canvas-creation events of a trace, as (width, height, background). -/
def canvasEvents (tr : List Event) : List (Nat × Nat × (Nat × Nat × Nat)) :=
  tr.filterMap fun e =>
    match e with
    | .newCanvas w h bg => some (w, h, bg)
    | _ => none

/-- The paste events of a trace, as (x, y, width, height). -/
def pasteRecords (tr : List Event) : List (Nat × Nat × Nat × Nat) :=
  tr.filterMap fun e =>
    match e with
    | .paste x y w h => some (x, y, w, h)
    | _ => none

/-- Closed form of the events the render loop emits when started with
`rendered_page_count = c` (proved equal to the loop's event output in
`renderLoop_spec`). -/
def renderEvents (doc : Doc) (num : Nat) : Nat → List Nat → List Event
  | _, [] => []
  | c, i :: rest =>
    match doc.pages[i]? with
    | none => .statusPageError (i + 1) :: renderEvents doc num c rest
    | some p =>
      if pageFailsRender p then .statusPageError (i + 1) :: renderEvents doc num c rest
      else .progress (.rendering (c + 1) num) ::
           .statusRendered (c + 1) num (i + 1) ::
           renderEvents doc num (c + 1) rest

/-- Whether the page at index `i` has at least one embedded image
(the `page.get_images(full=True)` test of line 191, as a predicate on the
index). -/
def hasImagesAt (l : List PageSpec) (i : Nat) : Bool :=
  match l[i]? with
  | some p => p.hasImages
  | none => false

/-- The final value of the loop accumulator `max_width` (line 213, 226-227)
over the pages of `sel` that render successfully: the canvas width. -/
def canvasW (doc : Doc) (sel : List Nat) : Nat :=
  ((renderedDims doc sel).map Prod.fst).foldl max 0

/-- The final value of the loop accumulator `total_height` (line 212, 225)
over the pages of `sel` that render successfully: the canvas height. -/
def canvasH (doc : Doc) (sel : List Nat) : Nat :=
  ((renderedDims doc sel).map Prod.snd).sum

/-- A page whose every external call succeeds and which contains an image. -/
def okPage (w h : Nat) : PageSpec :=
  { loadFails := false, getImagesFails := false, hasImages := true,
    renderFails := false, width := w, height := h }

/-- A page that loads and is inspectable but whose rasterization raises. -/
def failPage (w h : Nat) : PageSpec :=
  { loadFails := false, getImagesFails := false, hasImages := true,
    renderFails := true, width := w, height := h }

/-- A page with no embedded images that renders fine. -/
def plainPage (w h : Nat) : PageSpec :=
  { loadFails := false, getImagesFails := false, hasImages := false,
    renderFails := false, width := w, height := h }

/-- A page whose `get_images` call raises during the filter scan. -/
def scanFailPage : PageSpec :=
  { loadFails := false, getImagesFails := true, hasImages := false,
    renderFails := false, width := 8, height := 8 }

/-- The spec's end-to-end scenario: three pages 800x1000, 600x1000, 800x1000. -/
def docThree : Doc := { pages := [okPage 800 1000, okPage 600 1000, okPage 800 1000] }

/-- A document whose middle page fails to rasterize. -/
def docMixed : Doc := { pages := [okPage 10 10, failPage 20 20, okPage 30 30] }

/-- A document in which every page fails to rasterize. -/
def docAllFail : Doc := { pages := [failPage 5 5, failPage 6 6] }

/-- A document whose second page raises while being inspected by the filter. -/
def docScanBoom : Doc := { pages := [plainPage 4 4, scanFailPage, okPage 3 3] }

/-- A document in which only the second page has images. -/
def docFilter : Doc := { pages := [plainPage 4 4, okPage 7 9] }

/-- A document in which no page has images. -/
def docNoImages : Doc := { pages := [plainPage 1 1, plainPage 2 2] }

/-- A document in which only the second page has images, and that page fails
to rasterize: with the filter enabled, every selected page fails. -/
def docFilterAllFail : Doc := { pages := [plainPage 4 4, failPage 5 5] }

/-- The events the pipeline emits before the render loop starts, on runs that
reach the render loop. -/
def prefixEvents (doc : Doc) (only : Bool) : List Event :=
  if only then
    [.statusScan doc.pages.length, .statusFiltering, .statusFound (selOf doc only).length]
  else [.statusScan doc.pages.length]

/-- Branch form of `renderedDims` on a cons. -/
theorem renderedDims_cons (doc : Doc) (i : Nat) (rest : List Nat) :
    renderedDims doc (i :: rest) =
      (match doc.pages[i]? with
       | none => []
       | some p => if pageFailsRender p then [] else [(p.width, p.height)]) ++
      renderedDims doc rest := by
  cases hp : doc.pages[i]? with
  | none => simp [renderedDims, List.filterMap_cons, hp]
  | some p =>
    by_cases hf : pageFailsRender p <;>
      simp [renderedDims, List.filterMap_cons, hp, hf]

/-- Turning the source's running-maximum update into `max`. -/
theorem if_gt_eq_max (a b : Nat) : (if b > a then b else a) = max a b := by
  split <;> omega

/-- The render loop in closed form: its accumulators are the rendered
dimension list, the sum of heights, the running maximum of widths, the count
of successes, and the emitted events. -/
theorem renderLoop_spec (doc : Doc) (num : Nat) (sel : List Nat) (s : RenderState) :
    renderLoop doc num s sel =
      { images := s.images ++ renderedDims doc sel
        totalHeight := s.totalHeight + ((renderedDims doc sel).map Prod.snd).sum
        maxWidth := ((renderedDims doc sel).map Prod.fst).foldl max s.maxWidth
        renderedCount := s.renderedCount + (renderedDims doc sel).length
        events := s.events ++ renderEvents doc num s.renderedCount sel } := by
  induction sel generalizing s with
  | nil => simp [renderLoop, renderedDims, renderEvents]
  | cons i rest ih =>
    rw [renderLoop, renderedDims_cons]
    cases hp : doc.pages[i]? with
    | none =>
      rw [show renderStep doc num s i =
            { s with events := s.events ++ [.statusPageError (i + 1)] } by
          simp [renderStep, hp]]
      rw [ih]
      simp [renderEvents, hp]
    | some p =>
      by_cases hf : pageFailsRender p
      · rw [show renderStep doc num s i =
              { s with events := s.events ++ [.statusPageError (i + 1)] } by
            simp [renderStep, hp, hf]]
        rw [ih]
        simp [renderEvents, hp, hf]
      · rw [show renderStep doc num s i =
              { images := s.images ++ [(p.width, p.height)]
                totalHeight := s.totalHeight + p.height
                maxWidth := max s.maxWidth p.width
                renderedCount := s.renderedCount + 1
                events := s.events ++
                  [.progress (.rendering (s.renderedCount + 1) num),
                   .statusRendered (s.renderedCount + 1) num (i + 1)] } by
            simp [renderStep, hp, hf, if_gt_eq_max]]
        rw [ih]
        simp only [RenderState.mk.injEq]
        refine ⟨?_, ?_, ?_, ?_, ?_⟩
        · simp [hf]
        · simp [hf]
          omega
        · simp [hf]
        · simp [hf]
          omega
        · simp [renderEvents, hp, hf]

/-- The progress values pushed by the render loop: one value per successful
page, for the consecutive counter values starting just above `c`. -/
theorem progressValues_renderEvents (doc : Doc) (num : Nat) (c : Nat) (sel : List Nat) :
    progressValues (renderEvents doc num c sel) =
      (List.range' (c + 1) (renderedDims doc sel).length).map
        fun j => ProgressVal.toQ (.rendering j num) := by
  induction sel generalizing c with
  | nil => simp [renderEvents, renderedDims, progressValues]
  | cons i rest ih =>
    simp only [progressValues] at ih ⊢
    rw [renderedDims_cons]
    cases hp : doc.pages[i]? with
    | none => simp [renderEvents, hp, List.filterMap_cons, ih]
    | some p =>
      by_cases hf : pageFailsRender p
      · simp [renderEvents, hp, hf, List.filterMap_cons, ih]
      · rw [show renderEvents doc num c (i :: rest) =
              .progress (.rendering (c + 1) num) ::
              .statusRendered (c + 1) num (i + 1) ::
              renderEvents doc num (c + 1) rest by simp [renderEvents, hp, hf]]
        simp only [List.filterMap_cons]
        rw [ih]
        simp [hf, List.range'_succ]

/-- When every selected page fails to rasterize, the render loop emits
exactly one per-page failure status per selected page, in order. -/
theorem renderEvents_of_fail (doc : Doc) (num : Nat) :
    ∀ (sel : List Nat) (c : Nat),
      (∀ i ∈ sel, ∀ p, doc.pages[i]? = some p → pageFailsRender p = true) →
      renderEvents doc num c sel = sel.map fun i => Event.statusPageError (i + 1) := by
  intro sel
  induction sel with
  | nil =>
    intro c _
    simp [renderEvents]
  | cons i rest ih =>
    intro c h
    have hh := h i (List.mem_cons_self _ _)
    have ht : ∀ j ∈ rest, ∀ p, doc.pages[j]? = some p → pageFailsRender p = true :=
      fun j hj => h j (List.mem_cons_of_mem _ hj)
    cases hp : doc.pages[i]? with
    | none => simp [renderEvents, hp, ih c ht]
    | some p => simp [renderEvents, hp, hh p hp, ih c ht]

/-- When every selected page fails to rasterize, nothing is rendered. -/
theorem renderedDims_eq_nil_of_fail (doc : Doc) (sel : List Nat)
    (h : ∀ i ∈ sel, ∀ p, doc.pages[i]? = some p → pageFailsRender p = true) :
    renderedDims doc sel = [] := by
  unfold renderedDims
  rw [List.filterMap_eq_nil_iff]
  intro i hi
  cases hp : doc.pages[i]? with
  | none => rfl
  | some p => simp [h i hi p hp]

/-- Every event the render loop emits is a failure status, a progress push or
a rendered-page status. -/
theorem mem_renderEvents (doc : Doc) (num : Nat) (c : Nat) (sel : List Nat)
    (e : Event) (he : e ∈ renderEvents doc num c sel) :
    (∃ j, e = .statusPageError j) ∨ (∃ j k, e = .progress (.rendering j k)) ∨
    (∃ a b d, e = .statusRendered a b d) := by
  induction sel generalizing c with
  | nil => simp [renderEvents] at he
  | cons i rest ih =>
    cases hp : doc.pages[i]? with
    | none =>
      simp only [renderEvents, hp] at he
      rcases List.mem_cons.mp he with rfl | he
      · exact Or.inl ⟨i + 1, rfl⟩
      · exact ih _ he
    | some p =>
      by_cases hf : pageFailsRender p
      · simp only [renderEvents, hp, if_pos hf] at he
        rcases List.mem_cons.mp he with rfl | he
        · exact Or.inl ⟨i + 1, rfl⟩
        · exact ih _ he
      · simp only [renderEvents, hp, if_neg hf] at he
        rcases List.mem_cons.mp he with rfl | he
        · exact Or.inr (Or.inl ⟨c + 1, num, rfl⟩)
        · rcases List.mem_cons.mp he with rfl | he
          · exact Or.inr (Or.inr ⟨c + 1, num, i + 1, rfl⟩)
          · exact ih _ he

/-- The render loop emits no paste events. -/
theorem pasteRecords_renderEvents (doc : Doc) (num : Nat) (c : Nat) (sel : List Nat) :
    pasteRecords (renderEvents doc num c sel) = [] := by
  unfold pasteRecords
  rw [List.filterMap_eq_nil_iff]
  intro e he
  rcases mem_renderEvents doc num c sel e he with ⟨j, rfl⟩ | ⟨j, k, rfl⟩ | ⟨a, b, d, rfl⟩ <;>
    rfl

/-- The render loop creates no canvas. -/
theorem canvasEvents_renderEvents (doc : Doc) (num : Nat) (c : Nat) (sel : List Nat) :
    canvasEvents (renderEvents doc num c sel) = [] := by
  unfold canvasEvents
  rw [List.filterMap_eq_nil_iff]
  intro e he
  rcases mem_renderEvents doc num c sel e he with ⟨j, rfl⟩ | ⟨j, k, rfl⟩ | ⟨a, b, d, rfl⟩ <;>
    rfl

/-- The compositing loop emits one paste event per buffered image. -/
theorem pasteLoop_length (W y : Nat) (R : List (Nat × Nat)) :
    (pasteLoop W y R).length = R.length := by
  induction R generalizing y with
  | nil => simp [pasteLoop]
  | cons wh rest ih =>
    obtain ⟨w, h⟩ := wh
    simp [pasteLoop, ih]

/-- The paste records of the compositing loop, elementwise: the k-th paste
centers the k-th image and sits at the running total of prior heights. -/
theorem pasteRecords_pasteLoop_getElem (W y : Nat) (R : List (Nat × Nat))
    (k : Nat) (hk : k < R.length) :
    (pasteRecords (pasteLoop W y R))[k]? =
      some ((W - (R.get ⟨k, hk⟩).1) / 2, y + ((R.take k).map Prod.snd).sum,
            (R.get ⟨k, hk⟩).1, (R.get ⟨k, hk⟩).2) := by
  induction R generalizing y k with
  | nil => simp at hk
  | cons wh rest ih =>
    obtain ⟨w, h⟩ := wh
    cases k with
    | zero => simp [pasteLoop, pasteRecords, List.filterMap_cons]
    | succ k =>
      have hk' : k < rest.length := by simpa using hk
      simp only [pasteLoop, pasteRecords, List.filterMap_cons, List.getElem?_cons_succ]
      simp only [pasteRecords] at ih
      rw [ih (y + h) k hk']
      simp [List.take_succ_cons, Nat.add_assoc]

/-- Length form of the previous lemma. -/
theorem pasteRecords_pasteLoop_length (W y : Nat) (R : List (Nat × Nat)) :
    (pasteRecords (pasteLoop W y R)).length = R.length := by
  induction R generalizing y with
  | nil => simp [pasteLoop, pasteRecords]
  | cons wh rest ih =>
    obtain ⟨w, h⟩ := wh
    simp only [pasteLoop, pasteRecords, List.filterMap_cons] at ih ⊢
    simp [ih]

/-- Every paste the compositing loop emits centers an image of the list. -/
theorem mem_pasteLoop (W y : Nat) (R : List (Nat × Nat)) (e : Event)
    (he : e ∈ pasteLoop W y R) :
    ∃ w h y0, e = Event.paste ((W - w) / 2) y0 w h ∧ (w, h) ∈ R := by
  induction R generalizing y with
  | nil => simp [pasteLoop] at he
  | cons wh rest ih =>
    obtain ⟨w, h⟩ := wh
    simp only [pasteLoop, List.mem_cons] at he
    rcases he with he | he
    · exact ⟨w, h, y, he, List.mem_cons_self _ _⟩
    · obtain ⟨w', h', y0, he2, hm⟩ := ih (y + h) he
      exact ⟨w', h', y0, he2, List.mem_cons_of_mem _ hm⟩

/-- The compositing loop pushes no progress values. -/
theorem progressValues_pasteLoop (W y : Nat) (R : List (Nat × Nat)) :
    progressValues (pasteLoop W y R) = [] := by
  induction R generalizing y with
  | nil => simp [pasteLoop, progressValues]
  | cons wh rest ih =>
    obtain ⟨w, h⟩ := wh
    simp only [pasteLoop, progressValues, List.filterMap_cons] at ih ⊢
    simp [ih]

/-- The compositing loop creates no canvas. -/
theorem canvasEvents_pasteLoop (W y : Nat) (R : List (Nat × Nat)) :
    canvasEvents (pasteLoop W y R) = [] := by
  induction R generalizing y with
  | nil => simp [pasteLoop, canvasEvents]
  | cons wh rest ih =>
    obtain ⟨w, h⟩ := wh
    simp only [pasteLoop, canvasEvents, List.filterMap_cons] at ih ⊢
    simp [ih]

/-- A fold of `max` only grows its seed. -/
theorem foldl_max_init_le (l : List Nat) (a : Nat) : a ≤ l.foldl max a := by
  induction l generalizing a with
  | nil => simp
  | cons x xs ih => exact le_trans (le_max_left a x) (ih (max a x))

/-- Every member of the list is bounded by the fold of `max`. -/
theorem le_foldl_max_of_mem (l : List Nat) (a x : Nat) (hx : x ∈ l) :
    x ≤ l.foldl max a := by
  induction l generalizing a with
  | nil => simp at hx
  | cons z zs ih =>
    rcases List.mem_cons.mp hx with rfl | hx
    · exact le_trans (le_max_right a x) (foldl_max_init_le zs (max a x))
    · exact ih (max a z) hx

/-- The fold of `max` is the seed or a member of the list. -/
theorem foldl_max_mem_or (l : List Nat) (a : Nat) :
    l.foldl max a = a ∨ l.foldl max a ∈ l := by
  induction l generalizing a with
  | nil => simp
  | cons z zs ih =>
    rcases ih (max a z) with h | h
    · rcases Nat.le_total a z with hle | hle
      · right
        rw [List.foldl_cons, h, max_eq_right hle]
        exact List.mem_cons_self _ _
      · left
        rw [List.foldl_cons, h, max_eq_left hle]
    · right
      exact List.mem_cons_of_mem _ h

/-- Splitting the image-filter over an index range at a new head page. -/
theorem range_filter_cons (p : PageSpec) (rest : List PageSpec) :
    ((List.range (rest.length + 1)).filter fun i => hasImagesAt (p :: rest) i) =
      (if p.hasImages then [0] else []) ++
      ((List.range rest.length).filter fun i => hasImagesAt rest i).map (· + 1) := by
  rw [List.range_succ_eq_map, List.filter_cons, List.filter_map]
  have hcomp : (fun i => hasImagesAt (p :: rest) i) ∘ Nat.succ =
      fun i => hasImagesAt rest i := by
    funext i
    simp [Function.comp, hasImagesAt, List.getElem?_cons_succ]
  have h0 : hasImagesAt (p :: rest) 0 = p.hasImages := by
    simp [hasImagesAt]
  rw [hcomp, h0]
  by_cases hi : p.hasImages <;> simp [hi, Nat.succ_eq_add_one]

/-- The filter loop on a failure-free page list returns exactly the indices
whose page has at least one image, shifted by the start index. -/
theorem scanFrom_ok (l : List PageSpec) (k : Nat)
    (h : ∀ p ∈ l, pageFailsScan p = false) :
    scanFrom l k =
      .ok (((List.range l.length).filter fun i => hasImagesAt l i).map (· + k)) := by
  induction l generalizing k with
  | nil => simp [scanFrom]
  | cons p rest ih =>
    have hp : pageFailsScan p = false := h p (List.mem_cons_self _ _)
    have hih := ih (k + 1) fun q hq => h q (List.mem_cons_of_mem _ hq)
    simp only [scanFrom, hp, Bool.false_eq_true, if_false, hih, List.length_cons,
      range_filter_cons]
    by_cases hi : p.hasImages
    · simp only [hi, if_true, List.singleton_append, List.map_cons, List.map_map,
        Option.some.injEq, Except.ok.injEq]  -- may need adjusting
      refine List.cons_eq_cons.mpr ⟨by omega, ?_⟩
      exact List.map_congr_left fun a _ => by simp [Function.comp]; omega
    · simp only [hi, Bool.false_eq_true, if_false, List.nil_append, List.map_map,
        Except.ok.injEq]
      exact List.map_congr_left fun a _ => by simp [Function.comp]; omega

/-- The filter loop raises at the first page whose inspection raises. -/
theorem scanFrom_error (l : List PageSpec) (i k : Nat) (p : PageSpec)
    (hp : l[i]? = some p) (hfail : pageFailsScan p = true)
    (hfirst : ∀ j, j < i → ∀ q, l[j]? = some q → pageFailsScan q = false) :
    scanFrom l k = .error (k + i) := by
  induction l generalizing i k with
  | nil => simp at hp
  | cons p0 rest ih =>
    cases i with
    | zero =>
      rw [List.getElem?_cons_zero] at hp
      obtain rfl := Option.some.inj hp
      simp [scanFrom, hfail]
    | succ i =>
      have h0 : pageFailsScan p0 = false := hfirst 0 (Nat.succ_pos _) p0 (by simp)
      have hrest := ih i (k + 1) (by simpa using hp)
        fun j hj q hq => hfirst (j + 1) (by omega) q (by simpa using hq)
      simp only [scanFrom, h0, Bool.false_eq_true, if_false, hrest, Except.error.injEq]
      omega

/-- The post-selection body never fails with the no-matching-pages error. -/
theorem pipelineBody_ne_noMatchingPages (doc : Doc) (evs : List Event)
    (sel : List Nat) (save : Bool) :
    (pipelineBody doc evs sel save).2 ≠ .error .noMatchingPages := by
  simp only [pipelineBody]
  split_ifs <;> simp

/-- The post-selection body when no page renders: the no-pages-rendered error
after every selected page was attempted, the document closed, no canvas. -/
theorem pipelineBody_no_rendered (doc : Doc) (evs : List Event) (sel : List Nat)
    (save : Bool) (hsel : sel ≠ []) (hR : renderedDims doc sel = []) :
    pipelineBody doc evs sel save =
      (evs ++ [.statusProcessing sel.length] ++
        renderEvents doc sel.length 0 sel ++ [.closeDoc],
       .error .noPagesRendered) := by
  have hnum : ¬sel.length = 0 := by simpa [List.length_eq_zero] using hsel
  simp only [pipelineBody, hnum, if_false, renderLoop_spec, hR]
  simp

/-- The post-selection body when at least one page rendered: the full trace
through compositing and saving, and the save outcome. -/
theorem pipelineBody_rendered (doc : Doc) (evs : List Event) (sel : List Nat)
    (save : Bool) (hsel : sel ≠ []) (hR : renderedDims doc sel ≠ []) :
    pipelineBody doc evs sel save =
      (evs ++ [.statusProcessing sel.length] ++
        renderEvents doc sel.length 0 sel ++
        [.closeDoc, .statusCreating (canvasW doc sel) (canvasH doc sel),
         .progress .compositing,
         .newCanvas (canvasW doc sel) (canvasH doc sel) (255, 255, 255)] ++
        pasteLoop (canvasW doc sel) 0 (renderedDims doc sel) ++ [.statusSaving] ++
        (if save then [] else [.save, .progress .done]),
       if save then .error .cannotWriteDestination else .ok ()) := by
  have hnum : ¬sel.length = 0 := by simpa [List.length_eq_zero] using hsel
  simp only [pipelineBody, hnum, if_false, renderLoop_spec, hR]
  cases save <;> simp [canvasW, canvasH, hR, List.append_assoc]

/-- Cons step for extracting progress values from a trace. -/
theorem progressValues_cons (e : Event) (tr : List Event) :
    progressValues (e :: tr) =
      (match e with | .progress v => [v.toQ] | _ => ([] : List ℚ)) ++
      progressValues tr := by
  cases e <;> rfl

/-- Append step for extracting progress values from a trace. -/
theorem progressValues_append (l l' : List Event) :
    progressValues (l ++ l') = progressValues l ++ progressValues l' :=
  List.filterMap_append l l' _

/-- Empty trace pushes nothing. -/
theorem progressValues_nil : progressValues [] = [] := rfl

/-- Cons step for extracting canvas creations from a trace. -/
theorem canvasEvents_cons (e : Event) (tr : List Event) :
    canvasEvents (e :: tr) =
      (match e with
       | .newCanvas w h bg => [(w, h, bg)]
       | _ => ([] : List (Nat × Nat × (Nat × Nat × Nat)))) ++ canvasEvents tr := by
  cases e <;> rfl

/-- Append step for extracting canvas creations from a trace. -/
theorem canvasEvents_append (l l' : List Event) :
    canvasEvents (l ++ l') = canvasEvents l ++ canvasEvents l' :=
  List.filterMap_append l l' _

/-- Empty trace creates no canvas. -/
theorem canvasEvents_nil : canvasEvents [] = [] := rfl

/-- Cons step for extracting paste records from a trace. -/
theorem pasteRecords_cons (e : Event) (tr : List Event) :
    pasteRecords (e :: tr) =
      (match e with
       | .paste x y w h => [(x, y, w, h)]
       | _ => ([] : List (Nat × Nat × Nat × Nat))) ++ pasteRecords tr := by
  cases e <;> rfl

/-- Append step for extracting paste records from a trace. -/
theorem pasteRecords_append (l l' : List Event) :
    pasteRecords (l ++ l') = pasteRecords l ++ pasteRecords l' :=
  List.filterMap_append l l' _

/-- Empty trace pastes nothing. -/
theorem pasteRecords_nil : pasteRecords [] = [] := rfl

/-- At most one success per selected page. -/
theorem renderedDims_length_le (doc : Doc) (sel : List Nat) :
    (renderedDims doc sel).length ≤ sel.length :=
  List.length_filterMap_le _ _

/-- The render-loop progress expression, as a single quotient. -/
theorem rendering_toQ_eq (j num : Nat) :
    ProgressVal.toQ (.rendering j num) = 90 * j / num := by
  unfold ProgressVal.toQ
  ring

/-- Render-loop progress values are nonnegative. -/
theorem rendering_toQ_nonneg (j num : Nat) :
    0 ≤ ProgressVal.toQ (.rendering j num) := by
  rw [rendering_toQ_eq]
  positivity

/-- Render-loop progress values stay at or below 90 percent. -/
theorem rendering_toQ_le_90 (j num : Nat) (h : j ≤ num) :
    ProgressVal.toQ (.rendering j num) ≤ 90 := by
  rw [rendering_toQ_eq]
  rcases Nat.eq_zero_or_pos num with h0 | h0
  · subst h0
    simp
  · have hn : (0 : ℚ) < num := by exact_mod_cast h0
    rw [div_le_iff₀ hn]
    have hj : (j : ℚ) ≤ (num : ℚ) := by exact_mod_cast h
    nlinarith

/-- Render-loop progress values are monotone in the page counter. -/
theorem rendering_toQ_mono (num j j' : Nat) (h : j ≤ j') :
    ProgressVal.toQ (.rendering j num) ≤ ProgressVal.toQ (.rendering j' num) := by
  rw [rendering_toQ_eq, rendering_toQ_eq]
  rcases Nat.eq_zero_or_pos num with h0 | h0
  · subst h0
    simp
  · have hn : (0 : ℚ) < num := by exact_mod_cast h0
    have hj : (j : ℚ) ≤ (j' : ℚ) := by exact_mod_cast h
    exact div_le_div_of_nonneg_right (by nlinarith) (le_of_lt hn)

/-- Progress values pushed by the post-selection body: the rendering ramp,
then (when compositing is reached) 95, then 100 exactly on a completed save;
the result is a success exactly on rendered pages and a working save; and a
successful body ends with the save and the final 100. -/
theorem pv_pipelineBody (doc : Doc) (evs : List Event) (sel : List Nat) (save : Bool)
    (hsel : sel ≠ []) (hevs : progressValues evs = []) :
    progressValues (pipelineBody doc evs sel save).1 =
      ((List.range' 1 (renderedDims doc sel).length).map
        fun j => ProgressVal.toQ (.rendering j sel.length)) ++
      (if renderedDims doc sel = [] then []
       else if save then [(95 : ℚ)] else [(95 : ℚ), 100]) ∧
    ((pipelineBody doc evs sel save).2 = .ok () ↔
      renderedDims doc sel ≠ [] ∧ save = false) ∧
    (renderedDims doc sel ≠ [] → save = false →
      ∃ tr, (pipelineBody doc evs sel save).1 = tr ++ [Event.save, .progress .done]) := by
  by_cases hR : renderedDims doc sel = []
  · rw [pipelineBody_no_rendered doc evs sel save hsel hR]
    refine ⟨?_, by simp [hR], by simp [hR]⟩
    simp [progressValues_append, hevs, progressValues_cons, progressValues_nil,
      progressValues_renderEvents, hR]
  · rw [pipelineBody_rendered doc evs sel save hsel hR]
    refine ⟨?_, ?_, ?_⟩
    · cases save <;>
        simp [progressValues_append, hevs, progressValues_cons, progressValues_nil,
          progressValues_renderEvents, progressValues_pasteLoop, hR, ProgressVal.toQ]
    · cases save <;> simp [hR]
    · intro _ hsave
      subst hsave
      refine ⟨evs ++ [.statusProcessing sel.length] ++
        renderEvents doc sel.length 0 sel ++
        [.closeDoc, .statusCreating (canvasW doc sel) (canvasH doc sel),
         .progress .compositing,
         .newCanvas (canvasW doc sel) (canvasH doc sel) (255, 255, 255)] ++
        pasteLoop (canvasW doc sel) 0 (renderedDims doc sel) ++ [.statusSaving], ?_⟩
      simp [List.append_assoc]

/-- Shape of the progress values any pipeline run pushes: a monotone rendering
ramp bounded by the selection size, then one of the tails nothing, 95 alone,
or 95 then 100 — the last only on a run that saved successfully and whose
trace ends with the save followed by the 100. -/
theorem pv_pipeline_shape (doc? : Option Doc) (only save : Bool) :
    ∃ k num tail, k ≤ num ∧
      (tail = ([] : List ℚ) ∨ tail = [(95 : ℚ)] ∨ tail = [(95 : ℚ), 100]) ∧
      progressValues (pipeline doc? only save).1 =
        ((List.range' 1 k).map fun j => ProgressVal.toQ (.rendering j num)) ++ tail ∧
      ((100 : ℚ) ∈ tail →
        (pipeline doc? only save).2 = .ok () ∧
        ∃ tr, (pipeline doc? only save).1 = tr ++ [Event.save, .progress .done]) := by
  cases doc? with
  | none => exact ⟨0, 0, [], le_refl _, Or.inl rfl, by simp [pipeline, progressValues_nil], by simp⟩
  | some doc =>
    by_cases hlen : doc.pages.length = 0
    · exact ⟨0, 0, [], le_refl _, Or.inl rfl,
        by simp [pipeline, hlen, progressValues_cons, progressValues_nil], by simp⟩
    cases hs : selectionSet doc only with
    | error i =>
      refine ⟨0, 0, [], le_refl _, Or.inl rfl, ?_, by simp⟩
      cases only <;>
        simp [pipeline, hlen, hs, progressValues_cons, progressValues_nil,
          progressValues_append]
    | ok sel =>
      by_cases hnil : sel = []
      · cases honly : only with
        | false =>
          exfalso
          rw [honly] at hs
          simp only [selectionSet, if_false, Bool.false_eq_true, Except.ok.injEq] at hs
          rw [← hs] at hnil
          exact hlen (List.range_eq_nil.mp hnil)
        | true =>
          refine ⟨0, 0, [], le_refl _, Or.inl rfl, ?_, by simp⟩
          rw [honly] at hs
          simp [pipeline, hlen, hs, hnil, progressValues_cons, progressValues_nil,
            progressValues_append]
      · have hpipe : pipeline (some doc) only save =
            pipelineBody doc
              ([Event.statusScan doc.pages.length] ++
                (if only then [Event.statusFiltering] else []) ++
                (if only then [Event.statusFound sel.length] else [])) sel save := by
          cases only <;> simp [pipeline, hlen, hs, hnil]
        have hevs : progressValues
            ([Event.statusScan doc.pages.length] ++
              (if only then [Event.statusFiltering] else []) ++
              (if only then [Event.statusFound sel.length] else [])) = [] := by
          cases only <;>
            simp [progressValues_append, progressValues_cons, progressValues_nil]
        obtain ⟨hpv, hok, hend⟩ := pv_pipelineBody doc _ sel save hnil hevs
        refine ⟨(renderedDims doc sel).length, sel.length,
          (if renderedDims doc sel = [] then []
           else if save then [(95 : ℚ)] else [(95 : ℚ), 100]),
          renderedDims_length_le doc sel, ?_, ?_, ?_⟩
        · by_cases hR : renderedDims doc sel = []
          · simp [hR]
          · cases save <;> simp [hR]
        · rw [hpipe]
          exact hpv
        · intro h100
          by_cases hR : renderedDims doc sel = []
          · simp [hR] at h100
          · cases save with
            | true => norm_num [hR] at h100
            | false =>
              refine ⟨?_, ?_⟩
              · rw [hpipe]
                exact hok.mpr ⟨hR, rfl⟩
              · rw [hpipe]
                exact hend hR rfl

/-- Bounds and monotonicity for a progress-value list of the pipeline's
shape: the initial reset, the rendering ramp, then one of the three tails. -/
theorem pv_shape_props (num k : Nat) (hk : k ≤ num) (tail : List ℚ)
    (ht : tail = ([] : List ℚ) ∨ tail = [(95 : ℚ)] ∨ tail = [(95 : ℚ), 100]) :
    (∀ q ∈ (0 : ℚ) ::
        (((List.range' 1 k).map fun j => ProgressVal.toQ (.rendering j num)) ++ tail),
        0 ≤ q ∧ q ≤ 100) ∧
    List.Chain' (fun a b => a ≤ b)
      ((0 : ℚ) ::
        (((List.range' 1 k).map fun j => ProgressVal.toQ (.rendering j num)) ++ tail)) := by
  have hmem : ∀ j ∈ List.range' 1 k, j ≤ num := by
    intro j hj
    obtain ⟨i, hik, rfl⟩ := List.mem_range'.mp hj
    omega
  have htail_bounds : ∀ b ∈ tail, 95 ≤ b ∧ b ≤ 100 := by
    rcases ht with rfl | rfl | rfl
    · intro b hb
      simp at hb
    · intro b hb
      obtain rfl := List.mem_singleton.mp hb
      norm_num
    · intro b hb
      rcases List.mem_cons.mp hb with rfl | hb
      · norm_num
      · obtain rfl := List.mem_singleton.mp hb
        norm_num
  have hbounds : ∀ q ∈ (0 : ℚ) ::
      (((List.range' 1 k).map fun j => ProgressVal.toQ (.rendering j num)) ++ tail),
      0 ≤ q ∧ q ≤ 100 := by
    intro q hq
    rcases List.mem_cons.mp hq with rfl | hq
    · norm_num
    rcases List.mem_append.mp hq with hq | hq
    · obtain ⟨j, hj, rfl⟩ := List.mem_map.mp hq
      exact ⟨rendering_toQ_nonneg j num,
        le_trans (rendering_toQ_le_90 j num (hmem j hj)) (by norm_num)⟩
    · have := htail_bounds q hq
      exact ⟨le_trans (by norm_num) this.1, this.2⟩
  refine ⟨hbounds, List.Pairwise.chain' ?_⟩
  rw [List.pairwise_cons]
  refine ⟨fun b hb => (hbounds b (List.mem_cons_of_mem _ hb)).1, ?_⟩
  rw [List.pairwise_append]
  refine ⟨?_, ?_, ?_⟩
  · rw [List.pairwise_map]
    exact (List.pairwise_lt_range' 1 k).imp
      fun h => rendering_toQ_mono num _ _ (le_of_lt h)
  · rcases ht with rfl | rfl | rfl
    · exact List.Pairwise.nil
    · simp
    · norm_num [List.pairwise_cons]
  · intro a ha b hb
    obtain ⟨j, hj, rfl⟩ := List.mem_map.mp ha
    exact le_trans (rendering_toQ_le_90 j num (hmem j hj))
      (le_trans (by norm_num) (htail_bounds b hb).1)

/-- Anatomy of a successful pipeline run: the save worked, the selection and
the rendered list are non-empty, and the trace is the prefix statuses, the
render loop, the close, the canvas creation at the accumulated size, the
pastes, and the save. -/
theorem pipeline_ok_cases (doc : Doc) (only save : Bool)
    (h : (pipeline (some doc) only save).2 = .ok ()) :
    save = false ∧ doc.pages.length ≠ 0 ∧ selOf doc only ≠ [] ∧
    renderedDims doc (selOf doc only) ≠ [] ∧
    (pipeline (some doc) only save).1 =
      prefixEvents doc only ++ [.statusProcessing (selOf doc only).length] ++
      renderEvents doc (selOf doc only).length 0 (selOf doc only) ++
      [.closeDoc,
       .statusCreating (canvasW doc (selOf doc only)) (canvasH doc (selOf doc only)),
       .progress .compositing,
       .newCanvas (canvasW doc (selOf doc only)) (canvasH doc (selOf doc only))
         (255, 255, 255)] ++
      pasteLoop (canvasW doc (selOf doc only)) 0 (renderedDims doc (selOf doc only)) ++
      [.statusSaving, .save, .progress .done] := by
  by_cases hlen : doc.pages.length = 0
  · simp [pipeline, hlen] at h
  cases hs : selectionSet doc only with
  | error i =>
    rw [show (pipeline (some doc) only save).2 = .error (.scanError i) by
      cases only <;> simp [pipeline, hlen, hs]] at h
    exact absurd h (by simp)
  | ok sel =>
    have hselOf : selOf doc only = sel := by simp [selOf, hs]
    by_cases hnil : sel = []
    · cases honly : only with
      | false =>
        exfalso
        rw [honly] at hs
        simp only [selectionSet, if_false, Bool.false_eq_true, Except.ok.injEq] at hs
        rw [← hs] at hnil
        exact hlen (List.range_eq_nil.mp hnil)
      | true =>
        subst honly
        simp [pipeline, hlen, hs, hnil] at h
    · have hpipe : pipeline (some doc) only save =
          pipelineBody doc (prefixEvents doc only) sel save := by
        cases only <;>
          simp [pipeline, hlen, hs, hnil, prefixEvents, hselOf, List.append_assoc]
      rw [hpipe] at h
      by_cases hR : renderedDims doc sel = []
      · rw [pipelineBody_no_rendered doc _ sel save hnil hR] at h
        exact absurd h (by simp)
      · rw [pipelineBody_rendered doc _ sel save hnil hR] at h
        have hsave : save = false := by
          cases save
          · rfl
          · simp at h
        subst hsave
        refine ⟨rfl, hlen, by rw [hselOf]; exact hnil, by rw [hselOf]; exact hR, ?_⟩
        rw [hpipe, pipelineBody_rendered doc _ sel false hnil hR, hselOf]
        simp [List.append_assoc]

/-- The heights recorded by the compositing loop's pastes are the heights of
its input images, in order. -/
theorem pasteRecords_pasteLoop_heights (W y : Nat) (R : List (Nat × Nat)) :
    (pasteRecords (pasteLoop W y R)).map (fun r => r.2.2.2) = R.map Prod.snd := by
  induction R generalizing y with
  | nil => simp [pasteLoop, pasteRecords_nil]
  | cons wh rest ih =>
    obtain ⟨w, h⟩ := wh
    simp [pasteLoop, pasteRecords_cons, ih]

/-- The pipeline's pre-render status events contain no paste. -/
theorem paste_not_mem_prefixEvents (doc : Doc) (only : Bool) (x y w h : Nat) :
    Event.paste x y w h ∉ prefixEvents doc only := by
  cases only <;> simp [prefixEvents]

/-- C1: a page that fails to rasterize is skipped after a single status update
carrying its 1-based number and the loop moves on, only the non-failing pages
contributing their images in order; and on every conversion — with the filter
on or off — whose selection is non-empty and in which every selected page
fails to rasterize, the run fails with the no-pages-rendered error after
having attempted (and reported) every selected page, without ever creating a
canvas. -/
theorem C1_page_failure_policy (doc : Doc) (only saveFails : Bool) (sel : List Nat)
    (hok : selectionSet doc only = .ok sel) (hne : sel ≠ [])
    (hfail : ∀ i ∈ sel, pageFailsRender (doc.pages.getD i (plainPage 0 0)) = true) :
    (∀ (d : Doc) (num : Nat) (s : RenderState) (l : List Nat),
        (renderLoop d num s l).images = s.images ++ renderedDims d l) ∧
    (∀ (d : Doc) (num : Nat) (s : RenderState) (i : Nat) (p : PageSpec),
        d.pages[i]? = some p → pageFailsRender p = true →
        renderStep d num s i =
          { s with events := s.events ++ [.statusPageError (i + 1)] }) ∧
    (pipeline (some doc) only saveFails).2 = .error .noPagesRendered ∧
    (pipeline (some doc) only saveFails).1 =
      prefixEvents doc only ++ [.statusProcessing sel.length] ++
      sel.map (fun i => .statusPageError (i + 1)) ++ [.closeDoc] ∧
    (∀ w h bg, Event.newCanvas w h bg ∉ (pipeline (some doc) only saveFails).1) := by
  have hfail2 : ∀ i ∈ sel, ∀ p, doc.pages[i]? = some p → pageFailsRender p = true := by
    intro i hi p hp
    have := hfail i hi
    rw [List.getD_eq_getElem?_getD, hp] at this
    simpa using this
  have hlen : ¬doc.pages.length = 0 := by
    intro h0
    have hpe : doc.pages = [] := List.length_eq_zero.mp h0
    cases honly : only with
    | false =>
      rw [honly] at hok
      simp only [selectionSet, if_false, Bool.false_eq_true, h0, List.range_zero,
        Except.ok.injEq] at hok
      exact hne hok.symm
    | true =>
      rw [honly] at hok
      simp only [selectionSet, if_true, hpe, scanFrom, Except.ok.injEq] at hok
      exact hne hok.symm
  have hselOf : selOf doc only = sel := by simp [selOf, hok]
  have hpipe : pipeline (some doc) only saveFails =
      pipelineBody doc (prefixEvents doc only) sel saveFails := by
    cases only <;>
      simp [pipeline, hlen, hok, hne, prefixEvents, hselOf, List.append_assoc]
  have hR := renderedDims_eq_nil_of_fail doc sel hfail2
  have hbody := pipelineBody_no_rendered doc (prefixEvents doc only) sel saveFails hne hR
  have htrace : (pipeline (some doc) only saveFails).1 =
      prefixEvents doc only ++ [Event.statusProcessing sel.length] ++
      sel.map (fun i => Event.statusPageError (i + 1)) ++ [Event.closeDoc] := by
    rw [hpipe, hbody, renderEvents_of_fail doc sel.length sel 0 hfail2]
  refine ⟨?_, ?_, by rw [hpipe, hbody], htrace, ?_⟩
  · intro d num s l
    rw [renderLoop_spec]
  · intro d num s i p hp hf
    simp [renderStep, hp, hf]
  · intro w h bg
    rw [htrace]
    cases only <;> simp [prefixEvents]

/-- Witness for C1: a filter-enabled conversion of a document whose single
selected (image-bearing) page fails to rasterize, and which therefore fails
with the no-pages-rendered error. -/
theorem C1_page_failure_policy_witness :
    (pipeline (some docFilterAllFail) true false).2 = .error .noPagesRendered :=
  (C1_page_failure_policy docFilterAllFail true false [1]
    (by rfl) (by decide) (by decide)).2.2.1

/-- C2: every successful conversion creates exactly one canvas, at the width
accumulated as the maximum rendered page width (an upper bound on, and
attained by, the rendered widths), at the height accumulated as the sum of
the rendered page heights, with the opaque white RGB background
(255, 255, 255); both dimensions are fixed by the render loop before the
allocation event. -/
theorem C2_canvas_geometry (doc : Doc) (only save : Bool)
    (h : (pipeline (some doc) only save).2 = .ok ()) :
    canvasEvents (pipeline (some doc) only save).1 =
      [(canvasW doc (selOf doc only), canvasH doc (selOf doc only),
        (255, 255, 255))] ∧
    canvasH doc (selOf doc only) =
      ((renderedDims doc (selOf doc only)).map Prod.snd).sum ∧
    (∀ r ∈ renderedDims doc (selOf doc only), r.1 ≤ canvasW doc (selOf doc only)) ∧
    canvasW doc (selOf doc only) ∈ (renderedDims doc (selOf doc only)).map Prod.fst := by
  obtain ⟨hsave, hlen, hsel, hR, htr⟩ := pipeline_ok_cases doc only save h
  refine ⟨?_, rfl, ?_, ?_⟩
  · rw [htr]
    cases only <;>
      simp [prefixEvents, canvasEvents_append, canvasEvents_cons, canvasEvents_nil,
        canvasEvents_renderEvents, canvasEvents_pasteLoop]
  · intro r hr
    exact le_foldl_max_of_mem _ 0 r.1 (List.mem_map_of_mem Prod.fst hr)
  · rcases foldl_max_mem_or ((renderedDims doc (selOf doc only)).map Prod.fst) 0 with
      h0 | hmem
    · obtain ⟨r, hr⟩ := List.exists_mem_of_ne_nil _ hR
      have h1 : r.1 ≤ ((renderedDims doc (selOf doc only)).map Prod.fst).foldl max 0 :=
        le_foldl_max_of_mem _ 0 r.1 (List.mem_map_of_mem Prod.fst hr)
      rw [h0] at h1
      show ((renderedDims doc (selOf doc only)).map Prod.fst).foldl max 0 ∈ _
      rw [h0]
      exact List.mem_map.mpr ⟨r, hr, Nat.le_zero.mp h1⟩
    · exact hmem

/-- Witness for C2: the spec's three-page scenario converts successfully and
allocates one 800 by 3000 white canvas. -/
theorem C2_canvas_geometry_witness :
    canvasEvents (pipeline (some docThree) false false).1 =
      [(canvasW docThree (selOf docThree false), canvasH docThree (selOf docThree false),
        (255, 255, 255))] :=
  (C2_canvas_geometry docThree false false (by rfl)).1

/-- C3: on every successful conversion the pastes are exactly one per rendered
page, in selection order: the k-th paste carries the k-th rendered page, its
vertical offset is the sum of the heights of the pages pasted before it, and
the pasted heights sum exactly to the height of the single created canvas. -/
theorem C3_paste_order (doc : Doc) (only save : Bool)
    (h : (pipeline (some doc) only save).2 = .ok ()) :
    (pasteRecords (pipeline (some doc) only save).1).length =
      (renderedDims doc (selOf doc only)).length ∧
    (∀ k, (hk : k < (renderedDims doc (selOf doc only)).length) →
      (pasteRecords (pipeline (some doc) only save).1)[k]? =
        some ((canvasW doc (selOf doc only) -
                ((renderedDims doc (selOf doc only)).get ⟨k, hk⟩).1) / 2,
              (((renderedDims doc (selOf doc only)).take k).map Prod.snd).sum,
              ((renderedDims doc (selOf doc only)).get ⟨k, hk⟩).1,
              ((renderedDims doc (selOf doc only)).get ⟨k, hk⟩).2)) ∧
    ((pasteRecords (pipeline (some doc) only save).1).map (fun r => r.2.2.2)).sum =
      canvasH doc (selOf doc only) ∧
    canvasEvents (pipeline (some doc) only save).1 =
      [(canvasW doc (selOf doc only), canvasH doc (selOf doc only),
        (255, 255, 255))] := by
  obtain ⟨hsave, hlen, hsel, hR, htr⟩ := pipeline_ok_cases doc only save h
  have hpr : pasteRecords (pipeline (some doc) only save).1 =
      pasteRecords (pasteLoop (canvasW doc (selOf doc only)) 0
        (renderedDims doc (selOf doc only))) := by
    rw [htr]
    cases only <;>
      simp [prefixEvents, pasteRecords_append, pasteRecords_cons, pasteRecords_nil,
        pasteRecords_renderEvents]
  refine ⟨?_, ?_, ?_, ?_⟩
  · rw [hpr, pasteRecords_pasteLoop_length]
  · intro k hk
    rw [hpr]
    have := pasteRecords_pasteLoop_getElem (canvasW doc (selOf doc only)) 0
      (renderedDims doc (selOf doc only)) k hk
    simpa using this
  · rw [hpr, pasteRecords_pasteLoop_heights]
    rfl
  · rw [htr]
    cases only <;>
      simp [prefixEvents, canvasEvents_append, canvasEvents_cons, canvasEvents_nil,
        canvasEvents_renderEvents, canvasEvents_pasteLoop]

/-- Witness for C3: the spec's three-page scenario pastes the middle page
with vertical offset 1000 (the first page's height) and width 600. -/
theorem C3_paste_order_witness :
    (pasteRecords (pipeline (some docThree) false false).1).length =
      (renderedDims docThree (selOf docThree false)).length :=
  (C3_paste_order docThree false false (by rfl)).1

/-- C4: with the filter enabled and no page raising during inspection, the
selection is exactly the ascending list of indices whose page has at least one
embedded image, and the conversion fails with the no-matching-pages error
precisely when that list is empty. -/
theorem C4_filter_selection (doc : Doc) (saveFails : Bool)
    (hne : doc.pages ≠ [])
    (hscan : ∀ p ∈ doc.pages, pageFailsScan p = false) :
    selectionSet doc true =
      .ok ((List.range doc.pages.length).filter fun i => hasImagesAt doc.pages i) ∧
    List.Sorted (fun a b => a < b)
      ((List.range doc.pages.length).filter fun i => hasImagesAt doc.pages i) ∧
    (∀ i, i ∈ ((List.range doc.pages.length).filter fun i => hasImagesAt doc.pages i) ↔
      (i < doc.pages.length ∧ hasImagesAt doc.pages i = true)) ∧
    ((pipeline (some doc) true saveFails).2 = .error .noMatchingPages ↔
      ((List.range doc.pages.length).filter fun i => hasImagesAt doc.pages i) = []) := by
  have hlen : ¬doc.pages.length = 0 := by simpa [List.length_eq_zero] using hne
  have h1 : selectionSet doc true =
      .ok ((List.range doc.pages.length).filter fun i => hasImagesAt doc.pages i) := by
    rw [show selectionSet doc true = scanFrom doc.pages 0 by simp [selectionSet]]
    rw [scanFrom_ok doc.pages 0 hscan]
    simp
  refine ⟨h1, ?_, ?_, ?_, ?_⟩
  · exact List.Pairwise.sublist (List.filter_sublist _) (List.pairwise_lt_range _)
  · intro i
    simp [List.mem_filter, List.mem_range]
  · intro h2
    by_contra hFne
    have hpipe : pipeline (some doc) true saveFails =
        pipelineBody doc
          ([Event.statusScan doc.pages.length] ++ [Event.statusFiltering] ++
            [Event.statusFound ((List.range doc.pages.length).filter
              fun i => hasImagesAt doc.pages i).length])
          ((List.range doc.pages.length).filter fun i => hasImagesAt doc.pages i)
          saveFails := by
      simp [pipeline, hlen, h1, hFne]
    rw [hpipe] at h2
    exact pipelineBody_ne_noMatchingPages doc _ _ saveFails h2
  · intro hF
    rw [show (pipeline (some doc) true saveFails).2 = .error .noMatchingPages by
      simp [pipeline, hlen, h1, hF]]

/-- Witness for C4: a two-page document whose second page alone has images. -/
theorem C4_filter_selection_witness :
    selectionSet docFilter true =
      .ok ((List.range docFilter.pages.length).filter
        fun i => hasImagesAt docFilter.pages i) :=
  (C4_filter_selection docFilter false (by decide) (by decide)).1

/-- C5: every paste of a successful conversion is horizontally centered:
its offset is the floor of half the width difference to the canvas (recorded
in the single canvas-creation event), is nonnegative, and keeps the page
inside the canvas. -/
theorem C5_centering (doc : Doc) (only save : Bool)
    (h : (pipeline (some doc) only save).2 = .ok ()) :
    canvasEvents (pipeline (some doc) only save).1 =
      [(canvasW doc (selOf doc only), canvasH doc (selOf doc only),
        (255, 255, 255))] ∧
    ∀ x y w hgt, Event.paste x y w hgt ∈ (pipeline (some doc) only save).1 →
      x = (canvasW doc (selOf doc only) - w) / 2 ∧ 0 ≤ x ∧
      x + w ≤ canvasW doc (selOf doc only) := by
  obtain ⟨hsave, hlen, hsel, hR, htr⟩ := pipeline_ok_cases doc only save h
  constructor
  · rw [htr]
    cases only <;>
      simp [prefixEvents, canvasEvents_append, canvasEvents_cons, canvasEvents_nil,
        canvasEvents_renderEvents, canvasEvents_pasteLoop]
  · intro x y w hgt hmem
    rw [htr] at hmem
    simp only [List.mem_append] at hmem
    rcases hmem with ((((hpre | hproc) | hrend) | hmid) | hpaste) | htail
    · exact absurd hpre (paste_not_mem_prefixEvents doc only x y w hgt)
    · simp at hproc
    · rcases mem_renderEvents doc _ 0 _ _ hrend with ⟨j, hj⟩ | ⟨j, k, hj⟩ | ⟨a, b, d, hj⟩ <;>
        simp at hj
    · simp at hmid
    · obtain ⟨w2, h2, y0, heq, hmemR⟩ :=
        mem_pasteLoop (canvasW doc (selOf doc only)) 0
          (renderedDims doc (selOf doc only)) _ hpaste
      obtain ⟨hx, hy, hw, hh⟩ : x = (canvasW doc (selOf doc only) - w2) / 2 ∧
          y = y0 ∧ w = w2 ∧ hgt = h2 := by
        have := heq
        simp [Event.paste.injEq] at this
        exact ⟨this.1, this.2.1, this.2.2.1, this.2.2.2⟩
      subst hw
      have hwle : w ≤ canvasW doc (selOf doc only) :=
        le_foldl_max_of_mem _ 0 w (List.mem_map_of_mem Prod.fst hmemR)
      refine ⟨hx, Nat.zero_le x, ?_⟩
      subst hx
      omega
    · simp at htail

/-- Witness for C5: in the three-page scenario the middle page is pasted at
horizontal offset 100 inside the 800-wide canvas. -/
theorem C5_centering_witness :
    100 = (canvasW docThree (selOf docThree false) - 600) / 2 ∧ 0 ≤ 100 ∧
    100 + 600 ≤ canvasW docThree (selOf docThree false) :=
  (C5_centering docThree false false (by rfl)).2 100 1000 600 1000 (by decide)

/-- C9: with the filter disabled, a document with at least one page selects
exactly the indices 0 to N-1, in ascending order, N of them. -/
theorem C9_default_selection (doc : Doc) (h : 1 ≤ doc.pages.length) :
    selectionSet doc false = .ok (List.range doc.pages.length) ∧
    (List.range doc.pages.length).length = doc.pages.length ∧
    List.Sorted (fun a b => a < b) (List.range doc.pages.length) ∧
    (∀ i, i ∈ List.range doc.pages.length ↔ i < doc.pages.length) := by
  exact ⟨by simp [selectionSet], List.length_range _, List.pairwise_lt_range _,
    fun i => List.mem_range⟩

/-- Witness for C9 at the three-page document. -/
theorem C9_default_selection_witness :
    selectionSet docThree false = .ok (List.range docThree.pages.length) :=
  (C9_default_selection docThree (by decide)).1

/-- On every path that survives the filter scan, the opened document is
closed before the pipeline returns (the scan-failure path is the single
exception, exhibited for C6). -/
theorem closeDoc_mem_unless_scan_failure (doc : Doc) (only save : Bool)
    (h : ∀ i, (pipeline (some doc) only save).2 ≠ .error (.scanError i)) :
    Event.closeDoc ∈ (pipeline (some doc) only save).1 := by
  by_cases hlen : doc.pages.length = 0
  · simp [pipeline, hlen]
  cases hs : selectionSet doc only with
  | error i =>
    exfalso
    refine h i ?_
    cases only <;> simp [pipeline, hlen, hs]
  | ok sel =>
    by_cases hnil : sel = []
    · cases honly : only with
      | false =>
        exfalso
        rw [honly] at hs
        simp only [selectionSet, if_false, Bool.false_eq_true, Except.ok.injEq] at hs
        rw [← hs] at hnil
        exact hlen (List.range_eq_nil.mp hnil)
      | true =>
        subst honly
        simp [pipeline, hlen, hs, hnil]
    · have hselOf : selOf doc only = sel := by simp [selOf, hs]
      have hpipe : pipeline (some doc) only save =
          pipelineBody doc (prefixEvents doc only) sel save := by
        cases only <;>
          simp [pipeline, hlen, hs, hnil, prefixEvents, hselOf, List.append_assoc]
      rw [hpipe]
      by_cases hR : renderedDims doc sel = []
      · rw [pipelineBody_no_rendered doc _ sel save hnil hR]
        simp
      · rw [pipelineBody_rendered doc _ sel save hnil hR]
        simp

/-- C6 (defect): when a page raises while the filter scan inspects it, the
propagated error leaves the document open — the run ends in the scan error
and no close event is ever emitted, unlike every other post-open exit path. -/
theorem C6_close_leak_on_scan_failure :
    (pipeline (some docScanBoom) true false).2 = .error (.scanError 1) ∧
    Event.closeDoc ∉ (pipeline (some docScanBoom) true false).1 := by
  constructor
  · rfl
  · decide

/-- C7: within one conversion every value pushed to the progress bar lies in
[0, 100], the pushed sequence is monotonically non-decreasing, and 100 is
pushed only by a conversion that succeeded, directly after the successful
save, as the final event. -/
theorem C7_progress_contract (doc? : Option Doc) (only save : Bool) :
    (∀ q ∈ progressValues (conversionEvents doc? only save), 0 ≤ q ∧ q ≤ 100) ∧
    List.Chain' (fun a b => a ≤ b) (progressValues (conversionEvents doc? only save)) ∧
    ((100 : ℚ) ∈ progressValues (conversionEvents doc? only save) →
      (pipeline doc? only save).2 = .ok () ∧
      ∃ tr, (pipeline doc? only save).1 = tr ++ [Event.save, .progress .done]) := by
  obtain ⟨k, num, tail, hk, htail, hpv, h100⟩ := pv_pipeline_shape doc? only save
  have hconv : progressValues (conversionEvents doc? only save) =
      (0 : ℚ) ::
        (((List.range' 1 k).map fun j => ProgressVal.toQ (.rendering j num)) ++ tail) := by
    rw [conversionEvents, progressValues_cons, hpv]
    rfl
  obtain ⟨hb, hc⟩ := pv_shape_props num k hk tail htail
  rw [hconv]
  refine ⟨hb, hc, ?_⟩
  intro hmem
  apply h100
  rcases List.mem_cons.mp hmem with h0 | hmem2
  · exact absurd h0.symm (by norm_num)
  rcases List.mem_append.mp hmem2 with hmap | htl
  · exfalso
    obtain ⟨j, hj, habs⟩ := List.mem_map.mp hmap
    have hjle : j ≤ num := by
      obtain ⟨i, hik, rfl⟩ := List.mem_range'.mp hj
      omega
    have := rendering_toQ_le_90 j num hjle
    rw [habs] at this
    norm_num at this
  · exact htl

/-- C8: a conversion request whose DPI string is non-numeric or not strictly
positive is rejected as invalid configuration before any document is opened
and before the pipeline starts: the run returns immediately with an empty
event trace.  The spec's three examples are all rejected. -/
theorem C8_invalid_dpi_rejected (pdfPath outputPath dpiStr : String)
    (doc? : Option Doc) (only save : Bool)
    (h1 : pdfPath ≠ "") (h2 : outputPath ≠ "") (h3 : validate_dpi dpiStr = none) :
    start_conversion pdfPath outputPath dpiStr doc? only save =
      ([], .error .invalidConfiguration) ∧
    validate_dpi "0" = none ∧ validate_dpi "-5" = none ∧
    validate_dpi "abc" = none := by
  refine ⟨?_, by decide, by decide, by decide⟩
  simp [start_conversion, h1, h2, h3]

/-- Witness for C8 at the spec's non-numeric example. -/
theorem C8_invalid_dpi_rejected_witness :
    start_conversion "in.pdf" "out.png" "abc" (some docThree) false false =
      ([], .error .invalidConfiguration) :=
  (C8_invalid_dpi_rejected "in.pdf" "out.png" "abc" (some docThree) false false
    (by decide) (by decide) (by decide)).1

/-- C10: an exception raised while the filter scan loads or inspects a page
is not caught: the conversion aborts at the first such page with the
propagated error, no page is skipped, nothing is rendered and no progress is
pushed — the trace stops at the filtering status. -/
theorem C10_scan_failure_propagates (doc : Doc) (saveFails : Bool) (i : Nat)
    (p : PageSpec) (hp : doc.pages[i]? = some p) (hfail : pageFailsScan p = true)
    (hfirst : ∀ j, j < i → pageFailsScan (doc.pages.getD j (plainPage 0 0)) = false) :
    pipeline (some doc) true saveFails =
      ([.statusScan doc.pages.length, .statusFiltering], .error (.scanError i)) ∧
    (∀ j, Event.statusPageError j ∉ (pipeline (some doc) true saveFails).1) ∧
    (∀ v, Event.progress v ∉ (pipeline (some doc) true saveFails).1) := by
  have hlen : ¬doc.pages.length = 0 := by
    intro h0
    rw [List.length_eq_zero] at h0
    rw [h0] at hp
    simp at hp
  have hfirst2 : ∀ j, j < i → ∀ q, doc.pages[j]? = some q → pageFailsScan q = false := by
    intro j hj q hq
    have := hfirst j hj
    rw [List.getD_eq_getElem?_getD, hq] at this
    simpa using this
  have hscan : scanFrom doc.pages 0 = .error i := by
    have := scanFrom_error doc.pages i 0 p hp hfail hfirst2
    simpa using this
  have hsel : selectionSet doc true = .error i := by simp [selectionSet, hscan]
  have hpipe : pipeline (some doc) true saveFails =
      ([.statusScan doc.pages.length, .statusFiltering], .error (.scanError i)) := by
    simp [pipeline, hlen, hsel]
  refine ⟨hpipe, ?_, ?_⟩
  · intro j
    rw [show (pipeline (some doc) true saveFails).1 =
      [Event.statusScan doc.pages.length, Event.statusFiltering] by rw [hpipe]]
    simp
  · intro v
    rw [show (pipeline (some doc) true saveFails).1 =
      [Event.statusScan doc.pages.length, Event.statusFiltering] by rw [hpipe]]
    simp

/-- Witness for C10: the document whose second page raises during the scan. -/
theorem C10_scan_failure_propagates_witness :
    pipeline (some docScanBoom) true false =
      ([.statusScan docScanBoom.pages.length, .statusFiltering],
       .error (.scanError 1)) :=
  (C10_scan_failure_propagates docScanBoom false 1 scanFailPage
    (by rfl) (by decide) (by decide)).1

end Pdf2Img
